import Mathlib

/-!
Shallow embedding of the k8s-spot-rescheduler control loop
(`rescheduler.go`) and proofs about its planner, taint reconciler and
per-tick control flow.

Conventions of the embedding:
* Go pointer mutation is modelled by explicit state passing: a function
  that mutates a pod returns the updated pod.
* Go panics (nil dereference, slice index out of range) are modelled by
  `Option`: `none` means the corresponding Go code faults.
* External collaborators (listers, the predicate checker, the node-map
  builder, the drain executor) are inputs of the tick model, exactly as
  they are inputs of `run` in the source.
-/

/-- A node taint, as read and rewritten by `removeTaintFromAllSpotNodes`. -/
structure Taint where
  key : String
  value : String
  effect : String
deriving DecidableEq

/-- An owner reference of a pod; `controller` is a `*bool` in the source,
hence `Option Bool` here (`none` models a nil pointer). -/
structure OwnerReference where
  controller : Option Bool
  kind : String
deriving DecidableEq

/-- The part of a pod spec the rescheduler touches: the assigned node. -/
structure PodSpec where
  nodeName : String
deriving DecidableEq

/-- A pod, restricted to the fields `rescheduler.go` reads. -/
structure Pod where
  name : String
  ns : String
  annots : List (String × String)
  ownerReferences : List OwnerReference
  spec : PodSpec
deriving DecidableEq

/-- The part of a node spec the rescheduler touches: its taints. -/
structure NodeSpec where
  taints : List Taint
deriving DecidableEq

/-- A node, restricted to the fields `rescheduler.go` reads. -/
structure Node where
  name : String
  spec : NodeSpec
deriving DecidableEq

/-- A `nodes.NodeInfo`: the node together with its pods. -/
structure NodeInfo where
  node : Node
  pods : List Pod
deriving DecidableEq

/-- Go map lookup `pod.Annotations[k]`: the zero value `""` when absent. -/
def annotGet (p : Pod) (k : String) : String :=
  match p.annots.lookup k with
  | some v => v
  | none => ""

/-- `podID` from the source: the pod as `namespace/name`. -/
def podID (p : Pod) : String := p.ns ++ "/" ++ p.name

/-- The annotation key tested by `canDrainNode`. -/
def safeToEvictKey : String := "cluster-autoscaler.kubernetes.io/safe-to-evict"

/-- The in-place mutation `pod.Spec.NodeName = ""` performed by
`findSpotNodeForPod`, as a function on the pod. -/
def clearNodeName (p : Pod) : Pod :=
  { p with spec := { p.spec with nodeName := "" } }

/-- The forkable cluster snapshot, abstracted to the list of speculative
placements added by the planner; the predicate checker is a function of
this state. -/
abbrev Snap := List (Pod × String)

/-- `spotSnapshot.AddPod(pod, nodeName)`. -/
def Snap.addPod (s : Snap) (p : Pod) (n : String) : Snap := s ++ [(p, n)]

/-- `findSpotNodeForPod` from the source: walk the spot nodes in order,
clear the pod's assigned node (an in-place mutation of the pod, hence the
returned pod), and return the name of the first node whose predicate
check succeeds, or `""`. `check` models
`predicateChecker.CheckPredicates` returning nil. -/
def findSpotNodeForPod (check : Snap → Pod → String → Bool) (snap : Snap)
    (ns : List NodeInfo) (pod : Pod) : String × Pod :=
  match ns with
  | [] => ("", pod)
  | ni :: rest =>
    let pod2 := clearNodeName pod
    if check snap pod2 ni.node.name then (ni.node.name, pod2)
    else findSpotNodeForPod check snap rest pod2

/-- `canDrainNode` from the source: for each pod in order find a spot
node; if none is found, abort iff the pod is annotated
`safe-to-evict=false`, otherwise skip it; on success add the placement to
the snapshot before the next pod. -/
def canDrainNode (check : Snap → Pod → String → Bool) (ns : List NodeInfo) :
    Snap → List Pod → Except String Snap
  | snap, [] => Except.ok snap
  | snap, pod :: rest =>
    let r := findSpotNodeForPod check snap ns pod
    if r.1 = "" then
      if annotGet r.2 safeToEvictKey = "false" then
        Except.error ("Pod " ++ podID r.2 ++ " cannot be rescheduled on any existing node")
      else canDrainNode check ns snap rest
    else canDrainNode check ns (snap.addPod r.2 r.1) rest

/-- The owner scan of the daemon-set exclusion in `run`: Go evaluates
`*owner.Controller && owner.Kind == "DaemonSet"` for each owner in order,
breaking at the first hit; dereferencing a nil `Controller` faults
(`none`). -/
def controlledByDaemonSetGo : List OwnerReference → Option Bool
  | [] => some false
  | o :: rest =>
    match o.controller with
    | none => none
    | some c =>
      if c && o.kind == "DaemonSet" then some true else controlledByDaemonSetGo rest

/-- The movable-set filter in `run`: keep pods not controlled by a
daemon set, in order; faults (`none`) if any scanned owner reference has
a nil `Controller`. -/
def filterDaemonSetPods : List Pod → Option (List Pod)
  | [] => some []
  | p :: rest =>
    match controlledByDaemonSetGo p.ownerReferences with
    | none => none
    | some true => filterDaemonSetPods rest
    | some false =>
      match filterDaemonSetPods rest with
      | none => none
      | some l => some (p :: l)

/-- Specification-side predicate: the pod has an owner reference with
`Controller` pointing at true and kind `DaemonSet`. -/
def hasDaemonSetOwner (p : Pod) : Bool :=
  p.ownerReferences.any fun o => o.controller == some true && o.kind == "DaemonSet"

instance {ε α : Type} [DecidableEq ε] [DecidableEq α] : DecidableEq (Except ε α)
  | Except.error a, Except.error b =>
    if h : a = b then isTrue (by rw [h]) else isFalse (by intro hh; cases hh; exact h rfl)
  | Except.error _, Except.ok _ => isFalse (by intro h; cases h)
  | Except.ok _, Except.error _ => isFalse (by intro h; cases h)
  | Except.ok a, Except.ok b =>
    if h : a = b then isTrue (by rw [h]) else isFalse (by intro hh; cases hh; exact h rfl)

/-- The index sequence 0, 1, ..., visited by a Go range loop: `idxFrom s k`
is the `k` indices starting at `s`. -/
def idxFrom (s : Nat) : Nat → List Nat
  | 0 => []
  | k + 1 => s :: idxFrom (s + 1) k

/-- The body of the range loop of `removeTaintFromAllSpotNodes` over one
node, made explicit. The range expression is evaluated once, so the loop
visits the indices of the original slice while reading and writing the
shared backing array `arr`; `len` is the current slice length after the
truncations performed so far. A write `Taints[i] = Taints[len(Taints)-1]`
with `i` not below `len` is a Go index-out-of-range fault (`none`). -/
def removeTaintAux (key : String) : List Nat → List Taint × Nat → Option (List Taint × Nat)
  | [], st => some st
  | i :: is, (arr, len) =>
    match arr[i]? with
    | none => none
    | some t =>
      if t.key == key then
        if i < len then
          match arr[len - 1]? with
          | none => none
          | some last => removeTaintAux key is (arr.set i last, len - 1)
        else none
      else removeTaintAux key is (arr, len)

/-- The taint rewrite of `removeTaintFromAllSpotNodes` on one spot node:
run the range loop over the original indices and return the remaining
slice, or `none` when the loop faults. -/
def removeTaintFromNodeTaints (key : String) (taints : List Taint) : Option (List Taint) :=
  match removeTaintAux key (idxFrom 0 taints.length) (taints, taints.length) with
  | none => none
  | some (arr, len) => some (arr.take len)

/-- The per-node loop of `removeTaintFromAllSpotNodes` (the body after its
empty-key guard): each spot node's taints are rewritten independently;
a fault on any node faults the call. Failures of the node update API call
only log and do not alter the local slice, so they do not appear in the
state. -/
def removeTaintNodesLoop (key : String) : List NodeInfo → Option (List NodeInfo)
  | [] => some []
  | ni :: rest =>
    match removeTaintFromNodeTaints key ni.node.spec.taints with
    | none => none
    | some ts =>
      match removeTaintNodesLoop key rest with
      | none => none
      | some l =>
        some ({ ni with node := { ni.node with spec := { taints := ts } } } :: l)

/-- `removeTaintFromAllSpotNodes` from the source: a no-op when no taint
key is configured, otherwise the per-node rewrite loop. -/
def removeTaintFromAllSpotNodes (key : String) (spot : List NodeInfo) :
    Option (List NodeInfo) :=
  if key = "" then some spot else removeTaintNodesLoop key spot

/-- Per-node events of the tick, in order: a node reaching the
"Considering ... for removal" log, and a node passed to `drainNode`
together with the executor outcome. -/
inductive Event where
  | considered (nodeName : String)
  | drained (nodeName : String) (ok : Bool)
deriving DecidableEq

/-- The observable outcome of one tick of `run`: which stages ran and the
per-node events, plus the new value of `nextDrainTime` (`none` when it was
not reassigned). -/
structure TickResult where
  builtNodeMap : Bool
  updatedSpotMetrics : Bool
  ranTaintReconcile : Bool
  perNode : List Event
  nextDrain : Option Nat
deriving DecidableEq

/-- The tick environment: results of the external collaborators consumed
by one tick of `run`, exactly the calls the source makes. `podsFor`
models `GetPodsForDeletionOnNodeDrain` for an on-demand node (keyed by
node name), `drainOutcome` the drain executor, and `nowAfterDrain` the
`time.Now()` read when the cooldown is armed. -/
structure Env where
  unschedulable : Except String (List Pod)
  nodesList : Except String (List Node)
  nodeMap : Except String (List NodeInfo × List NodeInfo)
  pdbs : Except String (List Unit)
  podsFor : String → Except String (List Pod)
  check : Snap → Pod → String → Bool
  initSnap : Snap
  drainOutcome : String → Except String Unit
  nowAfterDrain : Nat
  drainDelay : Nat
  taintKey : String

/-- Whether an executor outcome is a success. -/
def isOkUnit : Except String Unit → Bool
  | Except.ok _ => true
  | Except.error _ => false

/-- The per-on-demand-node loop of `run`: pods-for-deletion errors and
empty movable sets skip the node; a planner failure reverts the snapshot
(the next node sees the original `snap`) and continues; a planner success
drains the node, arms the cooldown and breaks out of the loop. The
daemon-set filter may fault, which faults the tick. -/
def processOnDemand (podsFor : String → Except String (List Pod))
    (check : Snap → Pod → String → Bool) (drainOutcome : String → Except String Unit)
    (nowAfterDrain drainDelay : Nat) (spot : List NodeInfo) (snap : Snap) :
    List NodeInfo → Option (List Event × Option Nat)
  | [] => some ([], none)
  | ni :: rest =>
    match podsFor ni.node.name with
    | Except.error _ =>
      processOnDemand podsFor check drainOutcome nowAfterDrain drainDelay spot snap rest
    | Except.ok allPods =>
      match filterDaemonSetPods allPods with
      | none => none
      | some pods =>
        if pods.length < 1 then
          processOnDemand podsFor check drainOutcome nowAfterDrain drainDelay spot snap rest
        else
          match canDrainNode check spot snap pods with
          | Except.error _ =>
            match processOnDemand podsFor check drainOutcome nowAfterDrain drainDelay
                spot snap rest with
            | none => none
            | some (es, t) => some (Event.considered ni.node.name :: es, t)
          | Except.ok _ =>
            some ([Event.considered ni.node.name,
                   Event.drained ni.node.name (isOkUnit (drainOutcome ni.node.name))],
                  some (nowAfterDrain + drainDelay))

/-- The value of the unschedulable-pod list actually used by `run`: on a
lister error the slice is nil, so the length test sees an empty list. -/
def podsOrNil : Except String (List Pod) → List Pod
  | Except.error _ => []
  | Except.ok l => l

/-- One tick of `run` after the cooldown gate, given the unschedulable
list already resolved: backpressure returns first; node-list, node-map
and PDB listing errors skip the tick; then metrics, taint reconciliation
and the per-node loop run in source order. -/
def tickWith (env : Env) (unsched : List Pod) : Option TickResult :=
  if 0 < unsched.length then some ⟨false, false, false, [], none⟩
  else
    match env.nodesList with
    | Except.error _ => some ⟨false, false, false, [], none⟩
    | Except.ok _ =>
      match env.nodeMap with
      | Except.error _ => some ⟨false, false, false, [], none⟩
      | Except.ok (onDemand, spot) =>
        match env.pdbs with
        | Except.error _ => some ⟨true, false, false, [], none⟩
        | Except.ok _ =>
          match removeTaintFromAllSpotNodes env.taintKey spot with
          | none => none
          | some _ =>
            match processOnDemand env.podsFor env.check env.drainOutcome env.nowAfterDrain
                env.drainDelay spot env.initSnap onDemand with
            | none => none
            | some (es, t) => some ⟨true, true, true, es, t⟩

/-- One tick of `run` after the cooldown gate. -/
def tick (env : Env) : Option TickResult :=
  tickWith env (podsOrNil env.unschedulable)

/-- Specification-side first-fit: the name of the first node in the given
order whose predicate check accepts the pod, or `""`. -/
def specFirstFit (check : Snap → Pod → String → Bool) (snap : Snap)
    (ns : List NodeInfo) (pod : Pod) : String :=
  match ns.find? (fun ni => check snap pod ni.node.name) with
  | some ni => ni.node.name
  | none => ""

/-- A spot node used in concrete scenarios. -/
def spotNI : NodeInfo := ⟨⟨"spot1", ⟨[]⟩⟩, []⟩

/-- An on-demand node used in concrete scenarios. -/
def odNI : NodeInfo := ⟨⟨"od1", ⟨[]⟩⟩, []⟩

/-- A replicated pod without owners or annotations, assigned to od1. -/
def plainPod : Pod := ⟨"p1", "default", [], [], ⟨"od1"⟩⟩

/-- A pod annotated safe-to-evict=false, assigned to od1. -/
def blockedPod : Pod := ⟨"p2", "default", [(safeToEvictKey, "false")], [], ⟨"od1"⟩⟩

/-- A pod with an owner reference whose controller pointer is nil. -/
def nilOwnerPod : Pod := ⟨"p3", "default", [], [⟨none, "ReplicaSet"⟩], ⟨"od1"⟩⟩

/-- A concrete tick environment in which planning succeeds and od1 is
drained: one on-demand node with one movable pod, one spot node, an
always-accepting predicate checker. -/
def envDrain : Env :=
  { unschedulable := Except.ok []
    nodesList := Except.ok [⟨"od1", ⟨[]⟩⟩, ⟨"spot1", ⟨[]⟩⟩]
    nodeMap := Except.ok ([odNI], [spotNI])
    pdbs := Except.ok []
    podsFor := fun _ => Except.ok [plainPod]
    check := fun _ _ _ => true
    initSnap := []
    drainOutcome := fun _ => Except.ok ()
    nowAfterDrain := 5
    drainDelay := 10
    taintKey := "" }

/-- The tick result of `envDrain`: od1 is considered and drained, the
cooldown is armed to 15. -/
def resDrain : TickResult :=
  ⟨true, true, true, [Event.considered "od1", Event.drained "od1" true], some 15⟩

/-- Like `envDrain`, but the only movable pod carries
safe-to-evict=false. -/
def envDrainBlocked : Env :=
  { envDrain with podsFor := fun _ => Except.ok [blockedPod] }

/-- Like `envDrain`, but the unschedulable-pod lister fails. -/
def envListErr : Env :=
  { envDrain with unschedulable := Except.error "cache not ready" }

/-- Like `envDrain`, but there is one unschedulable pod in the cluster. -/
def envBackpressure : Env :=
  { envDrain with unschedulable := Except.ok [plainPod] }

/-- Whether a planner outcome is the abort case. -/
def isPlannerError : Except String Snap → Bool
  | Except.error _ => true
  | Except.ok _ => false

/-- Whether a per-node event is a drain-executor invocation. -/
def isDrainEvent : Event → Bool
  | Event.drained _ _ => true
  | Event.considered _ => false

/-- Holds when a drain event, if present, is the final event of the list:
nothing is considered or drained after it. -/
def noEventAfterDrain : List Event → Bool
  | [] => true
  | Event.drained _ _ :: rest => rest.isEmpty
  | Event.considered _ :: rest => noEventAfterDrain rest

theorem clearNodeName_idem (p : Pod) : clearNodeName (clearNodeName p) = clearNodeName p := rfl

theorem annotGet_clearNodeName (p : Pod) (k : String) :
    annotGet (clearNodeName p) k = annotGet p k := rfl

/-- The pod returned by `findSpotNodeForPod` is the input pod when no spot
node exists, and the input pod with its assigned node cleared otherwise. -/
theorem findSpotNodeForPod_snd (check : Snap → Pod → String → Bool) (snap : Snap)
    (ns : List NodeInfo) (pod : Pod) :
    (findSpotNodeForPod check snap ns pod).2 =
      if ns.isEmpty then pod else clearNodeName pod := by
  induction ns generalizing pod with
  | nil => rfl
  | cons ni rest ih =>
    simp only [findSpotNodeForPod, List.isEmpty_cons, if_neg Bool.false_ne_true]
    by_cases hc : check snap (clearNodeName pod) ni.node.name
    · simp [hc]
    · simp only [hc, if_neg Bool.false_ne_true, Bool.false_eq_true, if_false]
      rw [ih (clearNodeName pod)]
      cases rest <;> simp [clearNodeName_idem]

theorem annotGet_findSpotNodeForPod_snd (check : Snap → Pod → String → Bool)
    (snap : Snap) (ns : List NodeInfo) (pod : Pod) (k : String) :
    annotGet (findSpotNodeForPod check snap ns pod).2 k = annotGet pod k := by
  rw [findSpotNodeForPod_snd]
  cases ns <;> simp [annotGet_clearNodeName]

/-- `findSpotNodeForPod` computes first-fit over the given node order,
with the predicate checker seeing the pod with its assigned node cleared. -/
theorem findSpotNodeForPod_fst (check : Snap → Pod → String → Bool) (snap : Snap)
    (ns : List NodeInfo) (pod : Pod) :
    (findSpotNodeForPod check snap ns pod).1 =
      specFirstFit check snap ns (clearNodeName pod) := by
  induction ns generalizing pod with
  | nil => rfl
  | cons ni rest ih =>
    simp only [findSpotNodeForPod, specFirstFit]
    by_cases hc : check snap (clearNodeName pod) ni.node.name
    · have hf : List.find? (fun n => check snap (clearNodeName pod) n.node.name)
          (ni :: rest) = some ni := List.find?_cons_of_pos _ hc
      rw [if_pos hc, hf]
    · have hf : List.find? (fun n => check snap (clearNodeName pod) n.node.name)
          (ni :: rest) =
          List.find? (fun n => check snap (clearNodeName pod) n.node.name) rest :=
        List.find?_cons_of_neg _ (by simpa using hc)
      rw [if_neg hc, hf, ih (clearNodeName pod)]
      simp only [specFirstFit, clearNodeName_idem]

/-- Unfolding of `canDrainNode` at a pod for which a spot node was found:
the placement is added to the snapshot before the remaining pods run. -/
theorem canDrainNode_cons_placed (check : Snap → Pod → String → Bool)
    (ns : List NodeInfo) (snap : Snap) (pod : Pod) (rest : List Pod)
    (h : (findSpotNodeForPod check snap ns pod).1 ≠ "") :
    canDrainNode check ns snap (pod :: rest) =
      canDrainNode check ns
        (snap.addPod (findSpotNodeForPod check snap ns pod).2
          (findSpotNodeForPod check snap ns pod).1) rest := by
  simp only [canDrainNode]
  rw [if_neg h]

/-- Unfolding of `canDrainNode` at a pod with no spot node found and the
blocking annotation: the planner aborts. -/
theorem canDrainNode_cons_blocked (check : Snap → Pod → String → Bool)
    (ns : List NodeInfo) (snap : Snap) (pod : Pod) (rest : List Pod)
    (h1 : (findSpotNodeForPod check snap ns pod).1 = "")
    (h2 : annotGet pod safeToEvictKey = "false") :
    isPlannerError (canDrainNode check ns snap (pod :: rest)) = true := by
  simp only [canDrainNode]
  rw [if_pos h1, if_pos (by rw [annotGet_findSpotNodeForPod_snd]; exact h2)]
  rfl

theorem noEventAfterDrain_count (es : List Event)
    (h : noEventAfterDrain es = true) :
    (es.filter isDrainEvent).length ≤ 1 := by
  induction es with
  | nil => simp
  | cons e rest ih =>
    cases e with
    | considered n =>
      simp only [noEventAfterDrain] at h
      simpa [List.filter, isDrainEvent] using ih h
    | drained n b =>
      simp only [noEventAfterDrain, List.isEmpty_iff] at h
      subst h
      simp [List.filter, isDrainEvent]

/-- Loop invariant of the per-node loop: in any successful run, no event
follows a drain event. -/
theorem processOnDemand_noEventAfterDrain (podsFor : String → Except String (List Pod))
    (check : Snap → Pod → String → Bool) (drainOutcome : String → Except String Unit)
    (nowAfterDrain drainDelay : Nat) (spot : List NodeInfo)
    (snap : Snap) (l : List NodeInfo) (es : List Event) (t : Option Nat)
    (h : processOnDemand podsFor check drainOutcome nowAfterDrain drainDelay spot snap l =
      some (es, t)) :
    noEventAfterDrain es = true := by
  induction l generalizing es t with
  | nil =>
    simp only [processOnDemand, Option.some.injEq, Prod.mk.injEq] at h
    rw [← h.1]
    rfl
  | cons ni rest ih =>
    simp only [processOnDemand] at h
    split at h
    · exact ih es t h
    · split at h
      · cases h
      · split at h
        · exact ih es t h
        · split at h
          · split at h
            · cases h
            · rename_i es2 t2 hrec
              simp only [Option.some.injEq, Prod.mk.injEq] at h
              rw [← h.1]
              simpa [noEventAfterDrain] using ih es2 t2 hrec
          · simp only [Option.some.injEq, Prod.mk.injEq] at h
            rw [← h.1]
            rfl

/-- Loop invariant of the per-node loop: when a drain event occurred, the
cooldown result is armed to the post-drain clock plus the drain delay. -/
theorem processOnDemand_drainTime (podsFor : String → Except String (List Pod))
    (check : Snap → Pod → String → Bool) (drainOutcome : String → Except String Unit)
    (nowAfterDrain drainDelay : Nat) (spot : List NodeInfo)
    (snap : Snap) (l : List NodeInfo) (es : List Event) (t : Option Nat)
    (h : processOnDemand podsFor check drainOutcome nowAfterDrain drainDelay spot snap l =
      some (es, t))
    (hd : es.any isDrainEvent = true) :
    t = some (nowAfterDrain + drainDelay) := by
  induction l generalizing es t with
  | nil =>
    simp only [processOnDemand, Option.some.injEq, Prod.mk.injEq] at h
    rw [← h.1] at hd
    simp [List.any] at hd
  | cons ni rest ih =>
    simp only [processOnDemand] at h
    split at h
    · exact ih es t h hd
    · split at h
      · cases h
      · split at h
        · exact ih es t h hd
        · split at h
          · split at h
            · cases h
            · rename_i es2 t2 hrec
              simp only [Option.some.injEq, Prod.mk.injEq] at h
              obtain ⟨h1, h2⟩ := h
              rw [← h1] at hd
              simp only [List.any_cons, isDrainEvent, Bool.false_or] at hd
              rw [← h2]
              exact ih es2 t2 hrec hd
          · simp only [Option.some.injEq, Prod.mk.injEq] at h
            rw [← h.2]

theorem mem_idxFrom (s k i : Nat) (h : i ∈ idxFrom s k) : s ≤ i ∧ i < s + k := by
  induction k generalizing s with
  | zero => cases h
  | succ k ih =>
    simp only [idxFrom, List.mem_cons] at h
    cases h with
    | inl h => omega
    | inr h => have := ih (s + 1) h; omega

theorem idxFrom_append (a : Nat) : ∀ s b : Nat,
    idxFrom s (a + b) = idxFrom s a ++ idxFrom (s + a) b := by
  induction a with
  | zero => intro s b; simp [idxFrom]
  | succ a ih =>
    intro s b
    have hn : a + 1 + b = (a + b) + 1 := by omega
    rw [hn]
    simp only [idxFrom, ih (s + 1) b, List.cons_append]
    have hs : s + 1 + a = s + (a + 1) := by omega
    rw [hs]

/-- If every visited index is in bounds and holds a non-matching taint,
the range loop leaves the state untouched. -/
theorem removeTaintAux_skip (key : String) (is : List Nat) (arr : List Taint) (len : Nat)
    (hb : ∀ i ∈ is, i < arr.length)
    (hm : ∀ i ∈ is, ∀ t : Taint, arr[i]? = some t → (t.key == key) = false) :
    removeTaintAux key is (arr, len) = some (arr, len) := by
  induction is with
  | nil => rfl
  | cons i is ih =>
    have hi : i < arr.length := hb i (List.mem_cons_self i is)
    have ht : arr[i]? = some arr[i] := List.getElem?_eq_getElem hi
    simp only [removeTaintAux, ht, hm i (List.mem_cons_self i is) _ ht, Bool.false_eq_true,
      if_false]
    exact ih (fun j hj => hb j (List.mem_cons_of_mem i hj))
      (fun j hj => hm j (List.mem_cons_of_mem i hj))

/-- Stepping the range loop over a non-matching in-bounds index block. -/
theorem removeTaintAux_append_skip (key : String) (is1 is2 : List Nat)
    (arr : List Taint) (len : Nat)
    (hb : ∀ i ∈ is1, i < arr.length)
    (hm : ∀ i ∈ is1, ∀ t : Taint, arr[i]? = some t → (t.key == key) = false) :
    removeTaintAux key (is1 ++ is2) (arr, len) = removeTaintAux key is2 (arr, len) := by
  induction is1 with
  | nil => rfl
  | cons i is ih =>
    have hi : i < arr.length := hb i (List.mem_cons_self i is)
    have ht : arr[i]? = some arr[i] := List.getElem?_eq_getElem hi
    simp only [List.cons_append, removeTaintAux, ht,
      hm i (List.mem_cons_self i is) _ ht, Bool.false_eq_true, if_false]
    exact ih (fun j hj => hb j (List.mem_cons_of_mem i hj))
      (fun j hj => hm j (List.mem_cons_of_mem i hj))

/-- A list whose filtrate is a single element splits around that element,
with no match on either side. -/
theorem filter_single_decomp (p : Taint → Bool) (l : List Taint) (m : Taint)
    (h : l.filter p = [m]) :
    p m = true ∧ ∃ l1 l2, l = l1 ++ m :: l2 ∧
      (∀ x ∈ l1, p x = false) ∧ (∀ x ∈ l2, p x = false) := by
  induction l with
  | nil => cases h
  | cons a l ih =>
    by_cases hp : p a
    · rw [List.filter_cons_of_pos hp] at h
      have ha : a = m ∧ l.filter p = [] := by
        constructor
        · exact (List.cons_eq_cons.mp h).1
        · exact (List.cons_eq_cons.mp h).2
      refine ⟨ha.1 ▸ hp, [], l, by rw [ha.1]; rfl, ?_, ?_⟩
      · intro x hx; cases hx
      · intro x hx
        have := List.filter_eq_nil_iff.mp ha.2 x hx
        simpa using this
    · rw [List.filter_cons_of_neg (by simpa using hp)] at h
      obtain ⟨hm, l1, l2, hl, h1, h2⟩ := ih h
      exact ⟨hm, a :: l1, l2, by rw [hl]; rfl, by
        intro x hx
        cases hx with
        | head => simpa using hp
        | tail _ hx => exact h1 x hx, h2⟩

/-- The range loop of the taint rewrite stays in bounds whenever at most
one taint of the node carries the configured key. -/
theorem removeTaintFromNodeTaints_inBounds (key : String) (taints : List Taint)
    (h : (taints.filter fun t => t.key == key).length ≤ 1) :
    (removeTaintFromNodeTaints key taints).isSome = true := by
  cases hfil : taints.filter fun t => t.key == key with
  | nil =>
    have hall : ∀ t ∈ taints, ((fun t : Taint => t.key == key) t) = false := by
      intro t ht
      have := List.filter_eq_nil_iff.mp hfil t ht
      simpa using this
    have haux : removeTaintAux key (idxFrom 0 taints.length) (taints, taints.length) =
        some (taints, taints.length) := by
      apply removeTaintAux_skip
      · intro i hi
        have := mem_idxFrom 0 taints.length i hi
        omega
      · intro i hi t ht
        exact hall t (List.getElem?_mem ht)
    simp [removeTaintFromNodeTaints, haux]
  | cons m ms =>
    have hms : ms = [] := by
      rw [hfil] at h
      simp only [List.length_cons] at h
      exact List.length_eq_zero.mp (by omega)
    rw [hms] at hfil
    obtain ⟨hpm, l1, l2, hl, h1, h2⟩ :=
      filter_single_decomp (fun t => t.key == key) taints m hfil
    have hlen : taints.length = l1.length + (l2.length + 1) := by
      rw [hl]; simp [Nat.add_comm]
    have hsplit : idxFrom 0 taints.length =
        idxFrom 0 l1.length ++ (l1.length :: idxFrom (l1.length + 1) l2.length) := by
      rw [hlen, idxFrom_append l1.length 0 (l2.length + 1)]
      simp [idxFrom]
    have hstep1 : removeTaintAux key (idxFrom 0 taints.length) (taints, taints.length) =
        removeTaintAux key (l1.length :: idxFrom (l1.length + 1) l2.length)
          (taints, taints.length) := by
      rw [hsplit]
      apply removeTaintAux_append_skip
      · intro i hi
        have := mem_idxFrom 0 l1.length i hi
        rw [hl]; simp; omega
      · intro i hi t ht
        have hi2 := mem_idxFrom 0 l1.length i hi
        rw [hl, List.getElem?_append_left (by omega)] at ht
        exact h1 t (List.getElem?_mem ht)
    have hgetp : taints[l1.length]? = some m := by
      rw [hl, List.getElem?_append_right (Nat.le_refl _)]
      simp
    have hplt : l1.length < taints.length := by omega
    have hlast : taints[taints.length - 1]? = some taints[taints.length - 1] :=
      List.getElem?_eq_getElem (by omega)
    have hstep2 : removeTaintAux key
        (l1.length :: idxFrom (l1.length + 1) l2.length) (taints, taints.length) =
        removeTaintAux key (idxFrom (l1.length + 1) l2.length)
          (taints.set l1.length taints[taints.length - 1], taints.length - 1) := by
      simp only [removeTaintAux, hgetp, hpm, if_true, if_pos hplt, hlast]
    have hrest : removeTaintAux key (idxFrom (l1.length + 1) l2.length)
        (taints.set l1.length taints[taints.length - 1], taints.length - 1) =
        some (taints.set l1.length taints[taints.length - 1], taints.length - 1) := by
      apply removeTaintAux_skip
      · intro i hi
        have := mem_idxFrom (l1.length + 1) l2.length i hi
        rw [List.length_set]
        omega
      · intro i hi t ht
        have hi2 := mem_idxFrom (l1.length + 1) l2.length i hi
        rw [List.getElem?_set_ne (by omega)] at ht
        rw [hl, List.getElem?_append_right (by omega)] at ht
        have hidx : i - l1.length = (i - l1.length - 1) + 1 := by omega
        rw [hidx, List.getElem?_cons_succ] at ht
        exact h2 t (List.getElem?_mem ht)
    have haux : removeTaintAux key (idxFrom 0 taints.length) (taints, taints.length) =
        some (taints.set l1.length taints[taints.length - 1], taints.length - 1) := by
      rw [hstep1, hstep2, hrest]
    simp [removeTaintFromNodeTaints, haux]

/-- Under non-nil controller pointers, the Go owner scan computes exactly
the daemon-set-owner predicate. -/
theorem controlledByDaemonSetGo_eq (owners : List OwnerReference)
    (h : ∀ o ∈ owners, o.controller.isSome = true) :
    controlledByDaemonSetGo owners =
      some (owners.any fun o => o.controller == some true && o.kind == "DaemonSet") := by
  induction owners with
  | nil => rfl
  | cons o rest ih =>
    obtain ⟨c, hc⟩ := Option.isSome_iff_exists.mp (h o (List.mem_cons_self o rest))
    simp only [controlledByDaemonSetGo, hc, List.any_cons]
    cases c with
    | true =>
      by_cases hk : o.kind == "DaemonSet"
      · simp [hk]
      · simp only [Bool.true_and, hk, Bool.false_eq_true, if_false, Bool.false_or]
        simpa [hk] using ih (fun o2 ho2 => h o2 (List.mem_cons_of_mem o ho2))
    | false =>
      simp only [Bool.false_and, Bool.false_eq_true, if_false]
      simpa using ih (fun o2 ho2 => h o2 (List.mem_cons_of_mem o ho2))

/-- Under non-nil controller pointers, the movable-set filter is total and
keeps exactly the pods without a daemon-set owner, in order. -/
theorem filterDaemonSetPods_eq (pods : List Pod)
    (h : ∀ p ∈ pods, ∀ o ∈ p.ownerReferences, o.controller.isSome = true) :
    filterDaemonSetPods pods = some (pods.filter fun p => !hasDaemonSetOwner p) := by
  induction pods with
  | nil => rfl
  | cons p rest ih =>
    have hco := controlledByDaemonSetGo_eq p.ownerReferences
      (h p (List.mem_cons_self p rest))
    have ihr := ih (fun q hq => h q (List.mem_cons_of_mem p hq))
    cases hds : hasDaemonSetOwner p with
    | true =>
      simp only [filterDaemonSetPods, hco]
      rw [hasDaemonSetOwner] at hds
      simp only [hds]
      rw [List.filter_cons_of_neg (by simp [hasDaemonSetOwner, hds])]
      exact ihr
    | false =>
      simp only [filterDaemonSetPods, hco]
      rw [hasDaemonSetOwner] at hds
      simp only [hds, ihr]
      rw [List.filter_cons_of_pos (by simp [hasDaemonSetOwner, hds])]

/-- In any non-faulting tick, no per-node event follows a drain event. -/
theorem tick_noEventAfterDrain (env : Env) (res : TickResult)
    (h : tick env = some res) :
    noEventAfterDrain res.perNode = true := by
  simp only [tick, tickWith] at h
  split at h
  · cases h; rfl
  · split at h
    · cases h; rfl
    · split at h
      · cases h; rfl
      · split at h
        · cases h; rfl
        · split at h
          · cases h
          · split at h
            · cases h
            · rename_i es t hrec
              cases h
              exact processOnDemand_noEventAfterDrain _ _ _ _ _ _ _ _ _ _ hrec

/-- In any non-faulting tick with a drain event, the tick's cooldown
output is the post-drain clock plus the configured drain delay. -/
theorem tick_drainTime (env : Env) (res : TickResult)
    (h : tick env = some res)
    (hd : res.perNode.any isDrainEvent = true) :
    res.nextDrain = some (env.nowAfterDrain + env.drainDelay) := by
  simp only [tick, tickWith] at h
  split at h
  · cases h; simp at hd
  · split at h
    · cases h; simp at hd
    · split at h
      · cases h; simp at hd
      · split at h
        · cases h; simp at hd
        · split at h
          · cases h
          · split at h
            · cases h
            · rename_i es t hrec
              cases h
              exact processOnDemand_drainTime _ _ _ _ _ _ _ _ _ _ hrec hd

/-- C1 counterexample: a movable pod annotated safe-to-evict=false does
not abort the planner when some spot node's predicates accept it — the
annotation is only consulted after first-fit fails. With an
always-accepting checker, `canDrainNode` succeeds on the blocked pod,
and the whole tick drains the node carrying it. -/
theorem claimC1_counterexample :
    annotGet blockedPod safeToEvictKey = "false" ∧
    canDrainNode (fun _ _ _ => true) [spotNI] [] [blockedPod] =
      Except.ok [(clearNodeName blockedPod, "spot1")] ∧
    tick envDrainBlocked = some resDrain := by
  refine ⟨by decide, by decide, by decide⟩

/-- C1 (amended): the safe-to-evict=false annotation aborts `canDrainNode`
only for a pod that no spot node accepts; a pod some spot node accepts is
placed into the snapshot and does not abort, whatever its annotation. -/
theorem claimC1_blockerAbortsOnlyWhenUnplaceable :
    (∀ (check : Snap → Pod → String → Bool) (ns : List NodeInfo) (snap : Snap)
        (pod : Pod) (rest : List Pod),
      (findSpotNodeForPod check snap ns pod).1 = "" →
      annotGet pod safeToEvictKey = "false" →
      isPlannerError (canDrainNode check ns snap (pod :: rest)) = true) ∧
    (∀ (check : Snap → Pod → String → Bool) (ns : List NodeInfo) (snap : Snap) (pod : Pod),
      (findSpotNodeForPod check snap ns pod).1 ≠ "" →
      canDrainNode check ns snap [pod] =
        Except.ok (snap.addPod (findSpotNodeForPod check snap ns pod).2
          (findSpotNodeForPod check snap ns pod).1)) := by
  constructor
  · intro check ns snap pod rest h1 h2
    exact canDrainNode_cons_blocked check ns snap pod rest h1 h2
  · intro check ns snap pod h
    rw [canDrainNode_cons_placed check ns snap pod [] h]
    rfl

theorem claimC1_witness :
    isPlannerError (canDrainNode (fun _ _ _ => false) [] [] [blockedPod]) = true :=
  claimC1_blockerAbortsOnlyWhenUnplaceable.1 (fun _ _ _ => false) [] [] blockedPod []
    (by decide) (by decide)

/-- C2: in every non-faulting tick, a drain event is never followed by
another per-node event — after the first drain-executor invocation,
whatever its outcome, the per-node loop exits — so at most one node is
drained per tick. -/
theorem claimC2_atMostOneDrainPerTick (env : Env) (res : TickResult)
    (h : tick env = some res) :
    noEventAfterDrain res.perNode = true ∧
      (res.perNode.filter isDrainEvent).length ≤ 1 := by
  have h1 := tick_noEventAfterDrain env res h
  exact ⟨h1, noEventAfterDrain_count _ h1⟩

theorem claimC2_witness :
    noEventAfterDrain resDrain.perNode = true ∧
      (resDrain.perNode.filter isDrainEvent).length ≤ 1 :=
  claimC2_atMostOneDrainPerTick envDrain resDrain (by decide)

/-- C3: in every non-faulting tick in which a drain was attempted
(successful or not), the tick's cooldown output equals the post-drain
clock plus the drain delay, hence is at least any earlier attempt time
plus the drain delay. -/
theorem claimC3_cooldownArmed (env : Env) (res : TickResult) (t0 : Nat)
    (h : tick env = some res) (hmono : t0 ≤ env.nowAfterDrain)
    (hd : res.perNode.any isDrainEvent = true) :
    res.nextDrain = some (env.nowAfterDrain + env.drainDelay) ∧
      t0 + env.drainDelay ≤ env.nowAfterDrain + env.drainDelay :=
  ⟨tick_drainTime env res h hd, by omega⟩

theorem claimC3_witness :
    resDrain.nextDrain = some (envDrain.nowAfterDrain + envDrain.drainDelay) ∧
      3 + envDrain.drainDelay ≤ envDrain.nowAfterDrain + envDrain.drainDelay :=
  claimC3_cooldownArmed envDrain resDrain 3 (by decide) (by decide) (by decide)

/-- C4: `findSpotNodeForPod` assigns the pod to the first node of the
given order whose predicate check succeeds, and on success `canDrainNode`
adds the placement to the snapshot before processing the remaining pods,
so later pods are checked against the updated capacity. -/
theorem claimC4_firstFitAndAccumulate :
    (∀ (check : Snap → Pod → String → Bool) (snap : Snap) (ns : List NodeInfo) (pod : Pod),
      (findSpotNodeForPod check snap ns pod).1 =
        specFirstFit check snap ns (clearNodeName pod)) ∧
    (∀ (check : Snap → Pod → String → Bool) (ns : List NodeInfo) (snap : Snap)
        (pod : Pod) (rest : List Pod),
      (findSpotNodeForPod check snap ns pod).1 ≠ "" →
      canDrainNode check ns snap (pod :: rest) =
        canDrainNode check ns
          (snap.addPod (findSpotNodeForPod check snap ns pod).2
            (findSpotNodeForPod check snap ns pod).1) rest) :=
  ⟨findSpotNodeForPod_fst, canDrainNode_cons_placed⟩

theorem claimC4_witness :
    canDrainNode (fun _ _ _ => true) [spotNI] [] [plainPod] =
      canDrainNode (fun _ _ _ => true) [spotNI]
        (Snap.addPod [] (findSpotNodeForPod (fun _ _ _ => true) [] [spotNI] plainPod).2
          (findSpotNodeForPod (fun _ _ _ => true) [] [spotNI] plainPod).1) [] :=
  claimC4_firstFitAndAccumulate.2 (fun _ _ _ => true) [spotNI] [] plainPod [] (by decide)

/-- C5 counterexample: `findSpotNodeForPod` clears the assigned-node
field of the pod object itself (there is no candidate copy), so the pod's
node name after the call differs from its original value. -/
theorem claimC5_counterexample :
    ¬ ((findSpotNodeForPod (fun _ _ _ => false) [] [spotNI] plainPod).2.spec.nodeName =
      plainPod.spec.nodeName) := by decide

/-- C5 (amended): `findSpotNodeForPod` mutates the pod in place: after the
call the pod equals the input pod with `Spec.NodeName` set to the empty
string whenever at least one spot node was scanned (and is untouched when
the node list is empty); all other fields are unchanged. -/
theorem claimC5_podMutatedInPlace (check : Snap → Pod → String → Bool) (snap : Snap)
    (ns : List NodeInfo) (pod : Pod) :
    (findSpotNodeForPod check snap ns pod).2 =
      if ns.isEmpty then pod else clearNodeName pod :=
  findSpotNodeForPod_snd check snap ns pod

/-- C6: evaluation of the taint rewrite at the specified scenario and at
the failing input: with the configured key `preempt`, the two-taint list
`[preempt, gpu]` is rewritten to `[gpu]` as the claim says, but a node
carrying two taints with the configured key makes the in-place
swap-and-truncate loop write index 1 of a slice of length 1 — a Go
index-out-of-range panic, modelled by `none`. -/
theorem claimC6_taintRemovalPanics :
    removeTaintFromNodeTaints "preempt"
        [⟨"preempt", "", "NoSchedule"⟩, ⟨"gpu", "", "NoSchedule"⟩] =
      some [⟨"gpu", "", "NoSchedule"⟩] ∧
    removeTaintFromNodeTaints "preempt"
        [⟨"preempt", "a", "NoSchedule"⟩, ⟨"preempt", "b", "NoSchedule"⟩] = none :=
  ⟨by decide, by decide⟩

/-- C7: a tick that lists at least one unschedulable pod returns at the
backpressure gate: the node map is not built, spot metrics and taint
reconciliation do not run, no node is considered or drained, and the
cooldown is untouched. -/
theorem claimC7_backpressure (env : Env) (pods : List Pod)
    (h : env.unschedulable = Except.ok pods) (hne : 0 < pods.length) :
    tick env = some ⟨false, false, false, [], none⟩ := by
  unfold tick
  rw [h]
  show tickWith env pods = _
  unfold tickWith
  rw [if_pos hne]

theorem claimC7_witness :
    tick envBackpressure = some ⟨false, false, false, [], none⟩ :=
  claimC7_backpressure envBackpressure [plainPod] (by decide) (by decide)

/-- C8 counterexample: when the unschedulable-pod lister fails, the tick
is not skipped: with every other collaborator healthy, the tick still
builds the node map, runs spot metrics and taint reconciliation, and even
drains a node. -/
theorem claimC8_counterexample :
    envListErr.unschedulable = Except.error "cache not ready" ∧
    tick envListErr = some resDrain :=
  ⟨rfl, by decide⟩

/-- C8 (amended): a failure of the unschedulable-pod lister is logged but
does not skip the tick: the nil slice falls through the backpressure
length check, so the tick proceeds exactly as if the listing had returned
no pods. -/
theorem claimC8_listErrorProceeds (env : Env) (e : String)
    (h : env.unschedulable = Except.error e) :
    tick env = tick { env with unschedulable := Except.ok [] } := by
  unfold tick
  rw [h]
  rfl

theorem claimC8_witness :
    tick envListErr = tick { envListErr with unschedulable := Except.ok [] } :=
  claimC8_listErrorProceeds envListErr "cache not ready" rfl

/-- C9: the daemon-set exclusion dereferences each scanned owner
reference's controller pointer without a nil check — a pod with a nil
controller faults the filter — and under the precondition that every
owner reference's controller is non-nil, the filter is total and excludes
exactly the pods owned by a daemon-set controller. -/
theorem claimC9_daemonSetFilterTotality :
    (∀ pods : List Pod,
        (∀ p ∈ pods, ∀ o ∈ p.ownerReferences, o.controller.isSome = true) →
        filterDaemonSetPods pods = some (pods.filter fun p => !hasDaemonSetOwner p)) ∧
    filterDaemonSetPods [nilOwnerPod] = none :=
  ⟨filterDaemonSetPods_eq, by decide⟩

theorem claimC9_witness :
    filterDaemonSetPods [plainPod] =
      some ([plainPod].filter fun p => !hasDaemonSetOwner p) :=
  claimC9_daemonSetFilterTotality.1 [plainPod] (by decide)

/-- C10 counterexample: the in-place swap-and-truncate deletion does go
out of bounds: on a taint list with two taints carrying the configured
key, the loop writes at index 1 while the truncated slice has length 1. -/
theorem claimC10_counterexample :
    removeTaintFromNodeTaints "a"
        [⟨"a", "1", "NoSchedule"⟩, ⟨"a", "2", "NoSchedule"⟩] = none := by decide

/-- C10 (amended): all slice indexing in the taint-removal loop stays in
bounds for every taint list containing at most one taint with the
configured key; with two or more matching taints the loop can fault. -/
theorem claimC10_inBounds (key : String) (taints : List Taint)
    (h : (taints.filter fun t => t.key == key).length ≤ 1) :
    (removeTaintFromNodeTaints key taints).isSome = true :=
  removeTaintFromNodeTaints_inBounds key taints h

theorem claimC10_witness :
    (removeTaintFromNodeTaints "a"
      [⟨"a", "1", "NoSchedule"⟩, ⟨"b", "2", "NoSchedule"⟩]).isSome = true :=
  claimC10_inBounds "a" [⟨"a", "1", "NoSchedule"⟩, ⟨"b", "2", "NoSchedule"⟩] (by decide)
